import Mathlib

/-
Verification of the core of dorothy (an Okta security-testing shell):
a shallow embedding of the option registry, the paginated fetcher and the
nested-shell navigation machine of `src/dorothy/core.py`,
`src/dorothy/wrappers.py` and `src/dorothy/main.py`, with theorems checking
the natural-language specification against the embedded code.
-/

set_option autoImplicit false

namespace Dorothy

/- ### Option registry (`core.py`, class `Module`) -/

/-- A stored option value: Python stores either a raw string or, for
`group_ids`, a list of strings split on commas. -/
inductive MValue where
  | str (s : String)
  | list (l : List String)
  deriving DecidableEq, Repr

/-- One entry of a module's `module_options` dict: `{"value": ..,
"required": .., "help": ..}`. -/
structure MOption where
  value : Option MValue
  required : Bool
  help : String
  deriving DecidableEq, Repr

/-- Python truthiness of a stored value (`""` and `[]` are falsy). -/
def MValue.truthy : MValue → Bool
  | .str s => !s.isEmpty
  | .list l => !l.isEmpty

/-- Python truthiness of `v.get("value")`: `None`, `""` and `[]` are falsy. -/
def valueTruthy : Option MValue → Bool
  | none => false
  | some v => v.truthy

/-- A module's option registry: Python dict = insertion-ordered association
list with unique keys. -/
abbrev ModuleOptions := List (String × MOption)

/-- Lookup of `module_options[k]` (first matching key). -/
def lookupOpt : ModuleOptions → String → Option MOption
  | [], _ => none
  | (k', o) :: rest, k => if k' = k then some o else lookupOpt rest k

/-- `Module.check_options` (`core.py` lines 81-96).  The loop body ends in a
`return` on both branches, so only the first option is ever examined: it
yields `True` (error) when that first option is required and unset, `False`
otherwise.  An empty registry falls off the loop and returns Python `None`,
modelled as `none`. -/
def checkOptions : ModuleOptions → Option Bool
  | [] => none
  | (_, o) :: _ => if o.required && !(valueTruthy o.value) then some true else some false

/-- `Module.reset_options` (`core.py` lines 74-79): set every option's value
back to `None` and return the registry. -/
def resetOptions (opts : ModuleOptions) : ModuleOptions :=
  opts.map fun p => (p.1, { p.2 with value := none })

/-- `self.module_options[k]["value"] = v`: update the entry for key `k`;
`none` models the `KeyError` raised when `k` is not a key of the dict. -/
def setValue : ModuleOptions → String → MValue → Option ModuleOptions
  | [], _, _ => none
  | (k', o) :: rest, k, v =>
    if k' = k then some ((k', { o with value := some v }) :: rest)
    else (setValue rest k v).map fun r => (k', o) :: r

/-- The update map passed to `Module.set_options`: option name to the value
the user supplied (`none` when the click option was not given). -/
abbrev Updates := List (String × Option String)

/-- Python `str.strip()`: drop whitespace from both ends (modelled on the
character list so that it evaluates by kernel reduction). -/
def pyStrip (s : String) : String :=
  ⟨((s.data.dropWhile Char.isWhitespace).reverse.dropWhile Char.isWhitespace).reverse⟩

/-- Python `str.split(",")`. -/
def splitComma (s : String) : List String :=
  (s.data.splitOn ',').map fun cs => ⟨cs⟩

/-- One truthy update in the loop of `set_options` (`core.py` lines 61-70):
`group_ids` values are stripped and split on commas into a list
(`list(v.strip().split(","))`), any other value is stripped and stored as a
string (`v.strip()`). -/
def applyOne (opts : ModuleOptions) (k : String) (s : String) : Option ModuleOptions :=
  if k = "group_ids" then setValue opts k (.list (splitComma (pyStrip s)))
  else setValue opts k (.str (pyStrip s))

/-- The `for k, v in new_options.items()` loop of `set_options`: falsy values
(`None` or `""`) are skipped (`else: pass`), truthy values are applied. -/
def applyUpdates : ModuleOptions → Updates → Option ModuleOptions
  | opts, [] => some opts
  | opts, (_, none) :: rest => applyUpdates opts rest
  | opts, (k, some s) :: rest =>
    if s.isEmpty then applyUpdates opts rest
    else
      match applyOne opts k s with
      | some opts2 => applyUpdates opts2 rest
      | none => none

/-- Result of `Module.set_options`: `usage` models the early
`return click.echo(ctx.get_help())` (the registry is returned untouched to
record that no mutation happened), `updated` the normal `return
self.module_options`, `keyError` an uncaught `KeyError`. -/
inductive SetResult where
  | usage (opts : ModuleOptions)
  | updated (opts : ModuleOptions)
  | keyError
  deriving DecidableEq, Repr

/-- `Module.set_options` (`core.py` lines 55-72): if all update values are
`None`, echo the usage text and do not touch the registry; otherwise apply
the updates in order. -/
def setOptions (opts : ModuleOptions) (updates : Updates) : SetResult :=
  if updates.all fun u => u.2.isNone then .usage opts
  else
    match applyUpdates opts updates with
    | some opts2 => .updated opts2
    | none => .keyError

/- ### Paginated fetcher (`core.py`, `OktaOrg.get_users`, lines 179-253) -/

/-- The mocked result of one `session.get` call: `exn` models a transport
exception (network/timeout) raised by `requests`, `resp` a response with its
`ok` flag, JSON record list, presence of a `next` link and status code. -/
inductive PageFetch where
  | exn
  | resp (ok : Bool) (records : List Nat) (next : Bool) (status : Nat)
  deriving DecidableEq, Repr

/-- An observable message/audit event emitted by `get_users` (each models a
matching `LOGGER`/`index_event`/`click` call in the source). -/
inductive Event where
  | pageInfo (n : Nat)
  | apiError (status : Nat)
  | transportError
  | noMore
  | summary (n : Nat)
  deriving DecidableEq, Repr

/-- How the call to `get_users` ends: `attrError` is the `AttributeError`
raised by evaluating `response.ok` after the except-branch set
`response = None`; `errNone` is the bare `return` (Python `None`) taken on a
non-ok response; `success l` is the final `return harvested_users`;
`exhausted` marks a mock that supplied fewer responses than the loop
requests (never reached by a well-formed mock). -/
inductive Outcome where
  | attrError
  | errNone
  | success (records : List Nat)
  | exhausted
  deriving DecidableEq, Repr

/-- The observable behaviour of one `get_users` call: emitted events, number
of `session.get` requests issued, and how the call ended. -/
structure FetchResult where
  events : List Event
  requests : Nat
  outcome : Outcome
  deriving DecidableEq, Repr

/-- The code after the `while` loop of `get_users`: log a summary only when
the harvest is non-empty, then `return harvested_users`. -/
def finishUsers (acc : List Nat) (evs : List Event) (reqs : Nat) : FetchResult :=
  if acc.isEmpty then ⟨evs, reqs, .success acc⟩
  else ⟨evs ++ [.summary acc.length], reqs, .success acc⟩

/-- The `while next_page` loop of `get_users` (`core.py` lines 199-236),
driven by the list of mocked fetch results.  On a transport exception the
except-branch logs the error and sets `response = None`, after which
`if response.ok` raises `AttributeError`.  On a non-ok response the error is
logged and the function returns `None`, discarding the accumulator.  On an
ok response the records are appended and the `next` link decides whether the
loop continues. -/
def getUsersLoop : List PageFetch → List Nat → List Event → Nat → FetchResult
  | [], _, evs, reqs => ⟨evs, reqs, .exhausted⟩
  | .exn :: _, _, evs, reqs => ⟨evs ++ [.transportError], reqs + 1, .attrError⟩
  | .resp ok records nxt status :: rest, acc, evs, reqs =>
    if ok then
      if nxt then getUsersLoop rest (acc ++ records) (evs ++ [.pageInfo records.length]) (reqs + 1)
      else finishUsers (acc ++ records) (evs ++ [.pageInfo records.length, .noMore]) (reqs + 1)
    else ⟨evs ++ [.apiError status], reqs + 1, .errNone⟩

/-- `OktaOrg.get_users` run against a mocked page sequence. -/
def getUsers (pages : List PageFetch) : FetchResult :=
  getUsersLoop pages [] [] 0

/-- An ok page with the given records and `next`-link flag. -/
def okPage (records : List Nat) (nxt : Bool) : PageFetch :=
  .resp true records nxt 200

/-- A fully successful mock: pages `P1..Pn`, a `next` link on every page
except the last. -/
def mkOkPages : List (List Nat) → List PageFetch
  | [] => []
  | [r] => [okPage r false]
  | r :: rs => okPage r true :: mkOkPages rs

/-- A mock whose first `recs.length` pages succeed (each with a `next` link)
and whose following page answers with a non-success status. -/
def mkFailAfter (recs : List (List Nat)) (status : Nat) : List PageFetch :=
  recs.map (fun r => okPage r true) ++ [.resp false [] false status]

/-- A mock whose first `recs.length` pages succeed (each with a `next` link)
and whose following `session.get` raises a transport exception. -/
def mkExnAfter (recs : List (List Nat)) : List PageFetch :=
  recs.map (fun r => okPage r true) ++ [.exn]

/- ### Navigation state machine (`wrappers.py`) -/

/-- A line typed at the active shell: entering a subshell command, the fixed
navigation commands `back`/`main`/`exit`/`quit`, or any other (module or
global) command. -/
inductive NavCmd where
  | enter (name : String)
  | back
  | main
  | exitCmd
  | quit
  | other (name : String)
  deriving DecidableEq, Repr

/-- The navigation state: the stack of active subshell names (innermost
first, empty at the root shell), the class-level `ClickSubShell.pending_main`
and `pending_exit` flags, and whether the whole interactive session has
terminated. -/
structure NavState where
  stack : List String
  pendingMain : Bool
  pendingExit : Bool
  exited : Bool
  deriving DecidableEq, Repr

/-- Unwinding after the innermost shell loop stopped: each still-active
`ClickSubShell` runs `postcmd`, which also stops on `pending_main` or
`pending_exit`; when the root is reached, `ClickRootShell.postcmd` stops
(ending the session) only on `pending_exit`. -/
def cascade : List String → Bool → Bool → NavState
  | [], pm, pe => ⟨[], pm, pe, pe⟩
  | n :: rest, pm, pe => if pm || pe then cascade rest pm pe else ⟨n :: rest, pm, pe, false⟩

/-- One command processed at the currently active shell level.  At a subshell
`ClickSubShell.precmd` first resets both pending flags; `do_back` just stops
the innermost loop, `do_main` sets `pending_main`, `do_exit`/`do_quit` set
`pending_exit`, and the stop then cascades through `postcmd` of every
enclosing level.  At the root there is no flag reset and no `back`/`main`
command; `exit`/`quit` stop the root loop directly. -/
def step (s : NavState) (c : NavCmd) : NavState :=
  if s.exited then s
  else
    match s.stack, c with
    | [], .enter n => ⟨[n], s.pendingMain, s.pendingExit, false⟩
    | [], .exitCmd => ⟨[], s.pendingMain, s.pendingExit, true⟩
    | [], .quit => ⟨[], s.pendingMain, s.pendingExit, true⟩
    | [], .back => s
    | [], .main => s
    | [], .other _ => s
    | n :: rest, .enter m => ⟨m :: n :: rest, false, false, false⟩
    | _ :: rest, .back => cascade rest false false
    | _ :: rest, .main => cascade rest true false
    | _ :: rest, .exitCmd => cascade rest false true
    | _ :: rest, .quit => cascade rest false true
    | n :: rest, .other _ => ⟨n :: rest, false, false, false⟩

/-- Run a script of commands from a state. -/
def runNav (s : NavState) (script : List NavCmd) : NavState :=
  script.foldl step s

/-- The fresh session: at the root shell, no pending flags. -/
def initNav : NavState := ⟨[], false, false, false⟩

/- ### Command inheritance (`wrappers.py`, `CustomShell`) -/

/-- A shell's dispatch table: command name to the (opaque, here: its
observable output) command bound by `add_command`'s `setattr`; a later
`add_command` for the same name shadows an earlier one, so adding prepends
and lookup takes the first match. -/
abbrev CmdTable := List (String × String)

/-- `ClickShell.add_command`: bind (or shadow) `do_<name>`. -/
def addCommand (t : CmdTable) (name out : String) : CmdTable :=
  (name, out) :: t

/-- Dispatch (`getattr(self, "do_" + name)`): the most recently added
binding for the name wins. -/
def lookupCmd : CmdTable → String → Option String
  | [], _ => none
  | (n, c) :: rest, name => if n = name then some c else lookupCmd rest name

/-- Add every command of `src` (in order) to table `t`. -/
def addAll (src t : CmdTable) : CmdTable :=
  src.foldl (fun acc p => addCommand acc p.1 p.2) t

/-- `CustomShell.inherit_root_commands` (`wrappers.py` lines 157-169): walk
the parent chain to the root and add every command of the root group (its
table at construction time) to this shell. -/
def inheritRootCommands (rootCmds shellCmds : CmdTable) : CmdTable :=
  addAll rootCmds shellCmds

/-- The dispatch table a subshell ends up with: root commands materialised at
construction (`__init__` calls `inherit_root_commands`), the shell's own
commands registered afterwards on top. -/
def mkShellTable (rootCmds own : CmdTable) : CmdTable :=
  addAll own (inheritRootCommands rootCmds [])

/- ### Prompt rendering (`wrappers.py` lines 29-30 and 152) -/

/-- `CustomShell.__init__` line 152: the instance prompt is the parent's
prompt (empty for the root) followed by this shell's name and `" > "`. -/
def constructedPrompt (parentPrompt name : String) : String :=
  parentPrompt ++ name ++ " > "

/-- The prompt of the last node of a construction chain of shells, given the
chain of names from the root (inclusive) to the current node. -/
def chainPrompt (names : List String) : String :=
  names.foldl constructedPrompt ""

/-- `build_prompt` (`wrappers.py` lines 29-30): join the `PROMPT_STACK` with
`" > "` and append a final `" > "`. -/
def buildPrompt (stack : List String) : String :=
  String.intercalate " > " stack ++ " > "

/-- The prompt as the specification words it: the concatenation of the names
from Root (exclusive) to the current node, each followed by the separator.
Stated over the list of subshell names below the root, for comparison with
`chainPrompt`. -/
def specPromptRootExclusive : List String → String
  | [] => ""
  | n :: rest => n ++ " > " ++ specPromptRootExclusive rest

/- ### Navigation theorems -/

/-- After `do_main` set `pending_main`, every enclosing subshell's `postcmd`
also stops, and the root's `postcmd` (which only consults `pending_exit`)
keeps the root loop alive. -/
theorem cascade_main (l : List String) : cascade l true false = ⟨[], true, false, false⟩ := by
  induction l with
  | nil => rfl
  | cons n rest ih => simpa [cascade] using ih

/-- After `do_exit`/`do_quit` set `pending_exit`, every enclosing level
including the root stops, terminating the session. -/
theorem cascade_exit (l : List String) : cascade l false true = ⟨[], false, true, true⟩ := by
  induction l with
  | nil => rfl
  | cons n rest ih => simpa [cascade] using ih

/-- C5: in any live navigation state inside a subshell — whatever the
nesting depth — a single `main` command clears the entire stack back to the
root (depth 0) without terminating the session. -/
theorem main_returns_to_root (s : NavState) (hlive : s.exited = false)
    (hdepth : s.stack ≠ []) :
    (step s .main).stack = [] ∧ (step s .main).exited = false := by
  obtain ⟨stack, pm, pe, ex⟩ := s
  simp only at hlive
  subst hlive
  cases stack with
  | nil => exact absurd rfl hdepth
  | cons n rest => simp [step, cascade_main]

/-- C5 witness: from the root, `enter alpha; enter beta; main` ends back at
the root with the session still running. -/
theorem main_returns_to_root_witness :
    (step (runNav initNav [.enter "alpha", .enter "beta"]) .main).stack = [] ∧
    (step (runNav initNav [.enter "alpha", .enter "beta"]) .main).exited = false :=
  main_returns_to_root (runNav initNav [.enter "alpha", .enter "beta"]) (by decide) (by decide)

/-- C6: in any live navigation state — at the root or at a subshell of any
depth — `exit` (and equally `quit`) terminates the whole interactive
session: the stop propagates through every enclosing shell level. -/
theorem exit_terminates_session (s : NavState) (hlive : s.exited = false) :
    (step s .exitCmd).exited = true ∧ (step s .quit).exited = true := by
  obtain ⟨stack, pm, pe, ex⟩ := s
  simp only at hlive
  subst hlive
  cases stack with
  | nil => simp [step]
  | cons n rest => simp [step, cascade_exit]

/-- C6 witness: `exit` issued from a depth-3 subshell terminates the whole
session. -/
theorem exit_terminates_session_witness :
    (step (runNav initNav [.enter "a", .enter "b", .enter "c"]) .exitCmd).exited = true ∧
    (step (runNav initNav [.enter "a", .enter "b", .enter "c"]) .quit).exited = true :=
  exit_terminates_session (runNav initNav [.enter "a", .enter "b", .enter "c"]) (by decide)

/- ### Fetcher theorems -/

theorem finishUsers_outcome (acc : List Nat) (evs : List Event) (reqs : Nat) :
    (finishUsers acc evs reqs).outcome = .success acc := by
  unfold finishUsers
  split <;> rfl

theorem finishUsers_requests (acc : List Nat) (evs : List Event) (reqs : Nat) :
    (finishUsers acc evs reqs).requests = reqs := by
  unfold finishUsers
  split <;> rfl

/-- Loop invariant for a fully successful mock: the harvest is the
accumulator followed by all remaining pages, and each page costs one
request. -/
theorem getUsersLoop_ok (recs : List (List Nat)) (h : recs ≠ [])
    (acc : List Nat) (evs : List Event) (reqs : Nat) :
    (getUsersLoop (mkOkPages recs) acc evs reqs).outcome = .success (acc ++ recs.flatten) ∧
    (getUsersLoop (mkOkPages recs) acc evs reqs).requests = reqs + recs.length := by
  induction recs generalizing acc evs reqs with
  | nil => exact absurd rfl h
  | cons r rs ih =>
    cases rs with
    | nil =>
      simp [mkOkPages, getUsersLoop, okPage, finishUsers_outcome, finishUsers_requests]
    | cons r2 rs2 =>
      have step2 := ih (by simp) (acc ++ r) (evs ++ [.pageInfo r.length]) (reqs + 1)
      simp only [mkOkPages, getUsersLoop, okPage, if_true] at step2 ⊢
      refine ⟨?_, ?_⟩
      · rw [step2.1]
        simp
      · rw [step2.2]
        simp only [List.length_cons]
        omega

/-- C2: for every mocked endpoint exposing pages `P1..Pn` (n ≥ 1) with a
`next` link on every page except `Pn`, `get_users` returns the concatenation
of `P1..Pn` in arrival order, makes exactly `n` GET requests, and terminates
when no `next` relation is present. -/
theorem pagination_success (recs : List (List Nat)) (h : recs ≠ []) :
    (getUsers (mkOkPages recs)).outcome = .success recs.flatten ∧
    (getUsers (mkOkPages recs)).requests = recs.length := by
  have hloop := getUsersLoop_ok recs h [] [] 0
  simpa [getUsers] using hloop

/-- C2 witness: two pages `[1, 2]` and `[3]` yield the harvest `[1, 2, 3]`
in two requests. -/
theorem pagination_success_witness :
    (getUsers (mkOkPages [[1, 2], [3]])).outcome = .success [1, 2, 3] ∧
    (getUsers (mkOkPages [[1, 2], [3]])).requests = 2 := by
  simpa using pagination_success [[1, 2], [3]] (by decide)

/-- C1 counterexample: page 1 succeeds with records `[1]` and a `next` link,
page 2 answers 403.  The code then takes the bare `return` (`core.py` line
223), so `get_users` returns Python `None` — not the accumulated partial
result `[1]` and not an empty list either. -/
theorem partial_failure_counterexample :
    (getUsers [okPage [1] true, .resp false [] false 403]).outcome = .errNone ∧
    Outcome.errNone ≠ .success [1] ∧ Outcome.errNone ≠ .success [] := by
  decide

/-- Loop invariant for a mock that fails after its successful pages. -/
theorem getUsersLoop_fail (recs : List (List Nat)) (status : Nat)
    (acc : List Nat) (evs : List Event) (reqs : Nat) :
    (getUsersLoop (mkFailAfter recs status) acc evs reqs).outcome = .errNone ∧
    (getUsersLoop (mkFailAfter recs status) acc evs reqs).requests = reqs + (recs.length + 1) ∧
    Event.apiError status ∈ (getUsersLoop (mkFailAfter recs status) acc evs reqs).events := by
  induction recs generalizing acc evs reqs with
  | nil => simp [mkFailAfter, getUsersLoop]
  | cons r rs ih =>
    have step2 := ih (acc ++ r) (evs ++ [.pageInfo r.length]) (reqs + 1)
    simp only [mkFailAfter, List.map_cons, List.cons_append, List.append_eq, getUsersLoop,
      okPage, if_true] at step2 ⊢
    refine ⟨step2.1, ?_, step2.2.2⟩
    rw [step2.2.1]
    simp only [List.length_cons]
    omega

/-- C1 amended: if page `k` (for any `k ≥ 1`, so in particular `k > 1`)
returns a non-success status, `get_users` stops paginating after exactly `k`
requests and surfaces the status in an error event, but it returns Python
`None` — discarding the accumulated pages `P1..P(k-1)` — rather than the
partial concatenation; `None` is distinct from a successful empty harvest
(`[]`), but a page-1 failure is indistinguishable from a page-k failure by
the return value. -/
theorem partial_failure_amended (recs : List (List Nat)) (status : Nat) :
    (getUsers (mkFailAfter recs status)).outcome = .errNone ∧
    (getUsers (mkFailAfter recs status)).requests = recs.length + 1 ∧
    Event.apiError status ∈ (getUsers (mkFailAfter recs status)).events := by
  simpa [getUsers] using getUsersLoop_fail recs status [] [] 0

/-- Loop behaviour when a `session.get` raises after the successful pages:
the except-branch surfaces the failure, then `response.ok` on `None` raises
`AttributeError`. -/
theorem getUsersLoop_exn (recs : List (List Nat))
    (acc : List Nat) (evs : List Event) (reqs : Nat) :
    (getUsersLoop (mkExnAfter recs) acc evs reqs).outcome = .attrError ∧
    Event.transportError ∈ (getUsersLoop (mkExnAfter recs) acc evs reqs).events := by
  induction recs generalizing acc evs reqs with
  | nil => simp [mkExnAfter, getUsersLoop]
  | cons r rs ih =>
    have step2 := ih (acc ++ r) (evs ++ [.pageInfo r.length]) (reqs + 1)
    simp only [mkExnAfter, List.map_cons, List.cons_append, List.append_eq, getUsersLoop,
      okPage, if_true] at step2 ⊢
    exact step2

/-- C3 (code bug): when the underlying GET raises a transport exception on
any page, the except-branch does surface the failure (message and audit
event), but the subsequent `if response.ok` dereferences `None` and raises
`AttributeError` out of `get_users` — the call does not return an empty
harvest and the exception does escape, contradicting the claim. -/
theorem transport_failure_code_bug (recs : List (List Nat)) :
    (getUsers (mkExnAfter recs)).outcome = .attrError ∧
    Event.transportError ∈ (getUsers (mkExnAfter recs)).events := by
  simpa [getUsers] using getUsersLoop_exn recs [] [] 0

/- ### Option registry theorems -/

/-- A registry whose first option is optional and whose second option is
required and unset (exactly the state every registry is in right after
`reset_options`). -/
def c4Options : ModuleOptions :=
  [("note", ⟨none, false, "Optional note"⟩), ("user_id", ⟨none, true, "Target user ID"⟩)]

/-- C4 (code bug): `check_options` returns inside the first loop iteration,
so a missing required option that is not the first registry entry is never
detected.  On `c4Options` — a fixed point of `reset_options`, with the
required `user_id` unset — `check_options` reports no error (`False`),
although the claim (and the function's own docstring, "Check for any
required options that are missing") demands an error. -/
theorem check_options_first_item_bug :
    resetOptions c4Options = c4Options ∧
    ("user_id", (⟨none, true, "Target user ID"⟩ : MOption)) ∈ c4Options ∧
    checkOptions c4Options = some false := by
  decide

/-- C9: when every value of the update map is `None`, `set_options` takes
the early `return click.echo(ctx.get_help())`: it signals "show usage" and
the registry is left exactly as it was. -/
theorem all_null_set_noop (opts : ModuleOptions) (updates : Updates)
    (h : ∀ u ∈ updates, u.2 = none) :
    setOptions opts updates = .usage opts := by
  unfold setOptions
  have hall : (updates.all fun u => u.2.isNone) = true := by
    rw [List.all_eq_true]
    intro u hu
    simp [h u hu]
  simp [hall]

/-- C9 witness: a two-entry all-null update map leaves a configured registry
untouched and yields the usage signal. -/
theorem all_null_set_noop_witness :
    setOptions [("user_id", ⟨some (.str "x"), true, "Target user ID"⟩)]
        [("user_id", none), ("note", none)]
      = .usage [("user_id", ⟨some (.str "x"), true, "Target user ID"⟩)] :=
  all_null_set_noop _ _ (by decide)

/-- `setValue` leaves every key other than the written one unchanged. -/
theorem setValue_lookup_ne {opts opts2 : ModuleOptions} {k0 : String} {v : MValue}
    (hset : setValue opts k0 v = some opts2) {k : String} (hne : k0 ≠ k) :
    lookupOpt opts2 k = lookupOpt opts k := by
  induction opts generalizing opts2 with
  | nil => simp [setValue] at hset
  | cons p rest ih =>
    obtain ⟨k1, o⟩ := p
    simp only [setValue] at hset
    split at hset
    case isTrue hk =>
      have h2 := Option.some.inj hset
      subst h2
      have hk1 : k1 ≠ k := by rw [hk]; exact hne
      simp [lookupOpt, hk1]
    case isFalse hk =>
      obtain ⟨r, hr, hr2⟩ := Option.map_eq_some'.mp hset
      subst hr2
      by_cases hk1 : k1 = k
      · simp [lookupOpt, hk1]
      · simp [lookupOpt, hk1, ih hr]

/-- `setValue` writes a non-`None` value, so any option that is still unset
afterwards was untouched and already unset before. -/
theorem setValue_lookup_unset {opts opts2 : ModuleOptions} {k0 : String} {v : MValue}
    (hset : setValue opts k0 v = some opts2) {k : String} {o2 : MOption}
    (hl : lookupOpt opts2 k = some o2) (hv : o2.value = none) :
    lookupOpt opts k = some o2 := by
  induction opts generalizing opts2 with
  | nil => simp [setValue] at hset
  | cons p rest ih =>
    obtain ⟨k1, o⟩ := p
    simp only [setValue] at hset
    split at hset
    case isTrue hk =>
      have h2 := Option.some.inj hset
      subst h2
      by_cases hk1 : k1 = k
      · simp only [lookupOpt, if_pos hk1] at hl
        rw [← Option.some.inj hl] at hv
        simp at hv
      · simp only [lookupOpt, if_neg hk1] at hl ⊢
        exact hl
    case isFalse hk =>
      obtain ⟨r, hr, hr2⟩ := Option.map_eq_some'.mp hset
      subst hr2
      by_cases hk1 : k1 = k
      · simp only [lookupOpt, if_pos hk1] at hl ⊢
        exact hl
      · simp only [lookupOpt, if_neg hk1] at hl ⊢
        exact ih hr hl

/-- `applyOne` leaves every key other than the updated one unchanged. -/
theorem applyOne_lookup_ne {opts opts2 : ModuleOptions} {k0 s : String}
    (hap : applyOne opts k0 s = some opts2) {k : String} (hne : k0 ≠ k) :
    lookupOpt opts2 k = lookupOpt opts k := by
  unfold applyOne at hap
  split at hap
  · exact setValue_lookup_ne hap hne
  · exact setValue_lookup_ne hap hne

/-- `applyOne` never stores `None`: a still-unset option was untouched. -/
theorem applyOne_lookup_unset {opts opts2 : ModuleOptions} {k0 s : String}
    (hap : applyOne opts k0 s = some opts2) {k : String} {o2 : MOption}
    (hl : lookupOpt opts2 k = some o2) (hv : o2.value = none) :
    lookupOpt opts k = some o2 := by
  unfold applyOne at hap
  split at hap
  · exact setValue_lookup_unset hap hl hv
  · exact setValue_lookup_unset hap hl hv

/-- The update loop leaves every key that is not an update key unchanged. -/
theorem applyUpdates_lookup_not_mem {opts opts2 : ModuleOptions} {us : Updates}
    (h : applyUpdates opts us = some opts2) {k : String}
    (hk : k ∉ us.map Prod.fst) :
    lookupOpt opts2 k = lookupOpt opts k := by
  induction us generalizing opts with
  | nil =>
    simp only [applyUpdates, Option.some.injEq] at h
    rw [h]
  | cons u rest ih =>
    obtain ⟨k0, v0⟩ := u
    simp only [List.map_cons, List.mem_cons, not_or] at hk
    obtain ⟨hk0, hkrest⟩ := hk
    cases v0 with
    | none => exact ih h hkrest
    | some s =>
      simp only [applyUpdates] at h
      split at h
      · exact ih h hkrest
      · cases hmo : applyOne opts k0 s with
        | none => rw [hmo] at h; exact absurd h (by simp)
        | some mid =>
          rw [hmo] at h
          rw [ih h hkrest]
          exact applyOne_lookup_ne hmo fun he => hk0 he.symm

/-- Through the whole update loop, an option that ends unset was never
written and was already unset. -/
theorem applyUpdates_lookup_unset {opts opts2 : ModuleOptions} {us : Updates}
    (h : applyUpdates opts us = some opts2) {k : String} {o2 : MOption}
    (hl : lookupOpt opts2 k = some o2) (hv : o2.value = none) :
    lookupOpt opts k = some o2 := by
  induction us generalizing opts with
  | nil =>
    simp only [applyUpdates, Option.some.injEq] at h
    rw [h]
    exact hl
  | cons u rest ih =>
    obtain ⟨k0, v0⟩ := u
    cases v0 with
    | none => exact ih h
    | some s =>
      simp only [applyUpdates] at h
      split at h
      · exact ih h
      · cases hmo : applyOne opts k0 s with
        | none => rw [hmo] at h; exact absurd h (by simp)
        | some mid =>
          rw [hmo] at h
          exact applyOne_lookup_unset hmo (ih h) hv

/-- A falsy update entry (Python `None` or `""`) leaves its option
unchanged through the whole update loop. -/
theorem applyUpdates_falsy_mem {opts opts2 : ModuleOptions} {us : Updates}
    (hnd : (us.map Prod.fst).Nodup) (h : applyUpdates opts us = some opts2)
    {k : String} {v : Option String} (hm : (k, v) ∈ us)
    (hf : v = none ∨ v = some "") :
    lookupOpt opts2 k = lookupOpt opts k := by
  induction us generalizing opts with
  | nil => simp at hm
  | cons u rest ih =>
    obtain ⟨k0, v0⟩ := u
    simp only [List.map_cons, List.nodup_cons] at hnd
    obtain ⟨hk0, hndrest⟩ := hnd
    rcases List.mem_cons.mp hm with hhead | htail
    · obtain ⟨hkk, hvv⟩ := Prod.ext_iff.mp hhead
      subst hkk
      subst hvv
      have hnot : k ∉ rest.map Prod.fst := hk0
      rcases hf with rfl | rfl
      · have h2 : applyUpdates opts rest = some opts2 := h
        exact applyUpdates_lookup_not_mem h2 hnot
      · have h2 : applyUpdates opts rest = some opts2 := by
          simpa [applyUpdates] using h
        exact applyUpdates_lookup_not_mem h2 hnot
    · have hkrest : k ∈ rest.map Prod.fst := List.mem_map.mpr ⟨(k, v), htail, rfl⟩
      have hne : k0 ≠ k := fun he => hk0 (he ▸ hkrest)
      cases v0 with
      | none => exact ih hndrest h htail
      | some s =>
        simp only [applyUpdates] at h
        split at h
        · exact ih hndrest h htail
        · cases hmo : applyOne opts k0 s with
          | none => rw [hmo] at h; exact absurd h (by simp)
          | some mid =>
            rw [hmo] at h
            rw [ih hndrest h htail]
            exact applyOne_lookup_ne hmo hne

/-- A non-usage, non-error `set_options` run is exactly a successful run of
the update loop. -/
theorem setOptions_updated {opts opts2 : ModuleOptions} {us : Updates}
    (hset : setOptions opts us = .updated opts2) :
    applyUpdates opts us = some opts2 := by
  unfold setOptions at hset
  split at hset
  · exact absurd hset (by simp)
  · cases hm : applyUpdates opts us with
    | none => rw [hm] at hset; exact absurd hset (by simp)
    | some o =>
      rw [hm] at hset
      simp only [SetResult.updated.injEq] at hset
      rw [hset]

/-- C10 counterexample: the claim says an option "can never be cleared (set
back to null or empty) through set".  Updating `note` with the
whitespace-only string `" "` is truthy in Python, so it is not skipped, and
`v.strip()` stores the empty string: the previously configured value `"x"`
is cleared to `""`. -/
theorem falsy_update_counterexample :
    setOptions [("note", ⟨some (.str "x"), false, "A note"⟩)] [("note", some " ")]
      = .updated [("note", ⟨some (.str ""), false, "A note"⟩)] ∧
    MValue.str "" ≠ MValue.str "x" ∧ (MValue.str "").truthy = false := by
  decide

/-- C10 amended: `set_options` skips every falsy update value — an entry
that is `None` or the empty string leaves its option's stored value
unchanged — and it never stores `None`, so only `reset_options` returns a
value to null; a whitespace-only update is however truthy and is stored as
the empty string after stripping. -/
theorem falsy_updates_skipped (opts opts2 : ModuleOptions) (updates : Updates)
    (hnd : (updates.map Prod.fst).Nodup)
    (hset : setOptions opts updates = .updated opts2) :
    (∀ k v, (k, v) ∈ updates → (v = none ∨ v = some "") →
      lookupOpt opts2 k = lookupOpt opts k) ∧
    (∀ k o2, lookupOpt opts2 k = some o2 → o2.value = none →
      lookupOpt opts k = some o2) := by
  have happ := setOptions_updated hset
  constructor
  · intro k v hm hf
    exact applyUpdates_falsy_mem hnd happ hm hf
  · intro k o2 hl hv
    exact applyUpdates_lookup_unset happ hl hv

/-- C10 witness: with updates `note := None` and `user_id := "u"`, the
`note` option keeps its previous value. -/
theorem falsy_updates_skipped_witness :
    lookupOpt [("note", ⟨some (.str "x"), false, "A note"⟩),
        ("user_id", ⟨some (.str "u"), true, "Target user ID"⟩)] "note"
      = lookupOpt [("note", ⟨some (.str "x"), false, "A note"⟩),
        ("user_id", ⟨none, true, "Target user ID"⟩)] "note" := by
  have h := falsy_updates_skipped
    [("note", ⟨some (.str "x"), false, "A note"⟩),
      ("user_id", ⟨none, true, "Target user ID"⟩)]
    [("note", ⟨some (.str "x"), false, "A note"⟩),
      ("user_id", ⟨some (.str "u"), true, "Target user ID"⟩)]
    [("note", none), ("user_id", some "u")]
    (by decide) (by decide)
  exact (h.1 "note" none (by decide) (Or.inl rfl)).symm

/- ### Command inheritance theorems -/

/-- Adding commands whose names avoid `name` does not change what `name`
dispatches to. -/
theorem lookupCmd_addAll_not_mem (src : CmdTable) {name : String}
    (h : name ∉ src.map Prod.fst) (t : CmdTable) :
    lookupCmd (addAll src t) name = lookupCmd t name := by
  induction src generalizing t with
  | nil => rfl
  | cons p rest ih =>
    simp only [List.map_cons, List.mem_cons, not_or] at h
    obtain ⟨h1, h2⟩ := h
    have hstep : addAll (p :: rest) t = addAll rest (addCommand t p.1 p.2) := by
      simp [addAll]
    rw [hstep, ih h2]
    have hne : p.1 ≠ name := fun he => h1 he.symm
    simp [addCommand, lookupCmd, hne]

/-- Adding a duplicate-free command table makes each of its entries
dispatchable, whatever was in the table before. -/
theorem lookupCmd_addAll_mem (src : CmdTable) {name c : String}
    (hnd : (src.map Prod.fst).Nodup) (hm : (name, c) ∈ src) (t : CmdTable) :
    lookupCmd (addAll src t) name = some c := by
  induction src generalizing t with
  | nil => simp at hm
  | cons p rest ih =>
    simp only [List.map_cons, List.nodup_cons] at hnd
    obtain ⟨hnot, hndrest⟩ := hnd
    have hstep : addAll (p :: rest) t = addAll rest (addCommand t p.1 p.2) := by
      simp [addAll]
    rw [hstep]
    rcases List.mem_cons.mp hm with hhead | htail
    · obtain ⟨hkk, hvv⟩ := Prod.ext_iff.mp hhead.symm
      have hk2 : p.1 = name := hkk
      have hv2 : p.2 = c := hvv
      rw [lookupCmd_addAll_not_mem rest (hk2 ▸ hnot) _]
      simp [addCommand, lookupCmd, hk2, hv2]
    · exact ih hndrest htail _

/-- C7: a command declared only at the root shell — its name is a key of the
root's (duplicate-free) command table and of no subshell's own commands — is
dispatched by every subshell's table, at any depth, to the very same command
it is bound to in the root shell's own table, hence with identical output.
Each subshell's table is materialised from the root table at construction
time by `inherit_root_commands`. -/
theorem root_command_inheritance (rootCmds own : CmdTable) (name c : String)
    (hnd : (rootCmds.map Prod.fst).Nodup)
    (hroot : (name, c) ∈ rootCmds)
    (hown : name ∉ own.map Prod.fst) :
    lookupCmd (mkShellTable rootCmds own) name = some c ∧
    lookupCmd (mkShellTable rootCmds []) name = some c := by
  constructor
  · unfold mkShellTable inheritRootCommands
    rw [lookupCmd_addAll_not_mem own hown]
    exact lookupCmd_addAll_mem rootCmds hnd hroot []
  · unfold mkShellTable inheritRootCommands
    exact lookupCmd_addAll_mem rootCmds hnd hroot []

/-- C7 witness: `whoami`, declared only at the root, dispatches to the same
command from a subshell owning only `execute` as from the root shell. -/
theorem root_command_inheritance_witness :
    lookupCmd (mkShellTable [("whoami", "W"), ("list-modules", "L")] [("execute", "E")])
        "whoami" = some "W" ∧
    lookupCmd (mkShellTable [("whoami", "W"), ("list-modules", "L")] []) "whoami" = some "W" :=
  root_command_inheritance [("whoami", "W"), ("list-modules", "L")] [("execute", "E")]
    "whoami" "W" (by decide) (by decide) (by decide)

/- ### Prompt theorems -/

/-- C8 counterexample: the root shell is constructed with name `dorothy`
(`main.py`), and `CustomShell.__init__` seeds every prompt with the parent's
prompt, so after entering `alpha` then `beta` the rendered prompt is
`dorothy > alpha > beta > ` — the root's name is included — and not the
spec's root-exclusive `alpha > beta > `. -/
theorem prompt_counterexample :
    chainPrompt ["dorothy", "alpha", "beta"] = "dorothy > alpha > beta > " ∧
    specPromptRootExclusive ["alpha", "beta"] = "alpha > beta > " ∧
    chainPrompt ["dorothy", "alpha", "beta"] ≠ specPromptRootExclusive ["alpha", "beta"] := by
  decide

/-- Folding the prompt construction over a chain of names appends one
`name > ` segment per name. -/
theorem chainPrompt_foldl (subs : List String) (p : String) :
    List.foldl constructedPrompt p subs = p ++ specPromptRootExclusive subs := by
  induction subs generalizing p with
  | nil => simp [specPromptRootExclusive, String.append_empty]
  | cons n rest ih =>
    simp only [List.foldl_cons, constructedPrompt, specPromptRootExclusive, ih,
      String.append_assoc]

/-- C8 amended: at any navigation state, the rendered prompt is the
concatenation of the names of the nodes from the Root (inclusive, not
exclusive) to the current node, each followed by the separator `" > "`. -/
theorem prompt_amended (root : String) (subs : List String) :
    chainPrompt (root :: subs) = root ++ " > " ++ specPromptRootExclusive subs := by
  unfold chainPrompt
  rw [List.foldl_cons, chainPrompt_foldl]
  simp [constructedPrompt, String.empty_append, String.append_assoc]

end Dorothy
